import Mathlib

/-!
# sherpa-ncnn-ffmpeg: the streaming accumulator and the segment emitter

A shallow embedding of `ffmpeg-examples/sherpa-ncnn-ffmpeg.cc`:

* `sherpa_decode_frame` (lines 242-286): the static sample buffer, the
  dispatch of the buffered samples to the recognizer, the emission of the
  recognized text and the segment counter;
* the end of `main` (lines 439-455): tail padding and the last emission;
* the thread-count argument of `main` (lines 301-348).

The recognizer and the display live in headers that are not part of the
translated file; the recognizer is a parameter of every definition and the
display is represented by the list of its `Print` calls.
-/

namespace SherpaFfmpeg

/-! ## Data model -/

/-- The window size `#define N 3200` (0.2 s at 16 kHz). -/
def N : Nat := 3200

/-- A `float` sample. The only samples the program computes are
`p[i] / 32768.` for a 16-bit integer `p[i]`, and the zeros of the static
arrays; both the division by a power of two and the narrowing to `float`
are exact on 16-bit integers, so samples are represented by rationals. -/
abbrev Sample := ℚ

/-- The conversion `p[i] / 32768.` of line 284. -/
def normalize (p : Int) : Sample := (p : ℚ) / 32768

/-- An `AVFrame` as read by `sherpa_decode_frame`: the 16-bit mono samples
`((int16_t *)frame->data[0])[0 .. frame->nb_samples)`. -/
structure AVFrame where
  data : List Int
deriving DecidableEq

/-- The field `frame->nb_samples`. -/
def AVFrame.nb_samples (frame : AVFrame) : Nat := frame.data.length

/-- Modelled from the spec: `sherpa-ncnn/csrc/recognizer.h` is not part of the
translated sources. The recognizer together with its stream is an abstract
state `σ` with the operations the program calls (section 6 of the
specification). `pending` is the termination measure of the decode loop:
section 4.2 guarantees that "not ready" is reached in finitely many steps. -/
structure Recognizer (σ : Type) where
  AcceptWaveform : σ → List Sample → σ
  IsReady : σ → Bool
  DecodeStream : σ → σ
  IsEndpoint : σ → Bool
  GetResult : σ → String
  Reset : σ → σ
  InputFinished : σ → σ
  pending : σ → Nat
  pending_decreases : ∀ s, IsReady s = true → pending (DecodeStream s) < pending s

/-- The value an integer has once it is stored in a 32-bit signed variable
(two's complement). -/
def to_int32 (v : Int) : Int := (v + 2147483648) % 4294967296 - 2147483648

/-- The values of an `int32_t`. -/
def int32_range (v : Int) : Prop := -2147483648 ≤ v ∧ v ≤ 2147483647

/-- The state `last_text`, `segment_index` and `display` that `main` owns and
passes by reference. `segment_index` is an `int32_t`: an integer that the
operations keep in `int32_range`. The display is the list of the arguments
of its `Print` calls, oldest first. -/
structure Emitter where
  last_text : String
  segment_index : Int
  display : List (Int × String)
deriving DecidableEq

/-- The program state seen by `sherpa_decode_frame`: its two static locals,
the recognizer stream, the emitter state, the record of the blocks handed
to `AcceptWaveform` (oldest first), and the record of the pairs
`(text, is_endpoint)` read from the recognizer at lines 260-261 (oldest
first). -/
structure State (σ : Type) where
  samples : List Sample
  nb_samples : Nat
  s : σ
  emitter : Emitter
  accepted : List (List Sample)
  observed : List (String × Bool)

/-- The values at program start: zero-initialised statics, empty `last_text`,
`segment_index = 0`, nothing printed and nothing accepted. -/
def State.init {σ : Type} (s0 : σ) : State σ :=
  { samples := List.replicate N 0
    nb_samples := 0
    s := s0
    emitter := { last_text := "", segment_index := 0, display := [] }
    accepted := []
    observed := [] }

/-! ## Operations -/

/-- The function `std::tolower` in the "C" locale: only `A`-`Z` change. -/
def tolower (c : Char) : Char :=
  if 'A' ≤ c ∧ c ≤ 'Z' then Char.ofNat (c.toNat + 32) else c

/-- The call `std::transform(text.begin(), text.end(), text.begin(), tolower)`. -/
def lowercase (text : String) : String := String.mk (text.data.map tolower)

/-- The loop `while (recognizer.IsReady(s)) recognizer.DecodeStream(s);`. -/
def pump {σ : Type} (r : Recognizer σ) (s : σ) : σ :=
  if h : r.IsReady s = true then
    have : r.pending (r.DecodeStream s) < r.pending s := r.pending_decreases s h
    pump r (r.DecodeStream s)
  else s
termination_by r.pending s

/-- Lines 263-270 (and again 450-455): print the text when it is non-empty and
differs from `last_text`. Returns the text as left in the local variable (lower-cased
in place when printed) and the new emitter state. -/
def print_if_new (text : String) (e : Emitter) : String × Emitter :=
  if text ≠ "" ∧ e.last_text ≠ text then
    (lowercase text,
      { e with last_text := text
               display := e.display ++ [(e.segment_index, lowercase text)] })
  else (text, e)

/-- Lines 263-275 on the emitter state: one observation of the recognizer
output `(text, is_endpoint)`. The increment `++segment_index` is made on an
`int32_t`: at 2147483647 it overflows, and the result is the two's
complement wrap -2147483648. -/
def observe (text : String) (is_endpoint : Bool) (e : Emitter) : Emitter :=
  let (text, e) := print_if_new text e
  if is_endpoint then
    if text ≠ "" then { e with segment_index := to_int32 (e.segment_index + 1) } else e
  else e

/-- The loop of lines 283-285, `samples[nb_samples++] = p[i] / 32768.`. A write
outside `samples[0 .. N)` is undefined behaviour: the loop stops with the
offending index as error. -/
def write_samples : List Int → List Sample → Nat → Except Nat (List Sample × Nat)
  | [], samples, nb_samples => .ok (samples, nb_samples)
  | p :: ps, samples, nb_samples =>
    if nb_samples < N then
      write_samples ps (samples.set nb_samples (normalize p)) (nb_samples + 1)
    else .error nb_samples

/-- Lines 253-281: the branch taken when `frame->nb_samples + nb_samples >= N`. -/
def dispatch {σ : Type} (r : Recognizer σ) (st : State σ) : State σ :=
  let window := st.samples.take st.nb_samples
  let s := r.AcceptWaveform st.s window
  let s := pump r s
  let is_endpoint := r.IsEndpoint s
  let text := r.GetResult s
  let e := observe text is_endpoint st.emitter
  let s := if is_endpoint then r.Reset s else s
  { st with s := s, emitter := e, accepted := st.accepted ++ [window]
            observed := st.observed ++ [(text, is_endpoint)], nb_samples := 0 }

/-- The function `sherpa_decode_frame`. -/
def sherpa_decode_frame {σ : Type} (r : Recognizer σ) (frame : AVFrame) (st : State σ) :
    Except Nat (State σ) :=
  let st := if frame.nb_samples + st.nb_samples ≥ N then dispatch r st else st
  match write_samples frame.data st.samples st.nb_samples with
  | .ok (samples, nb_samples) => .ok { st with samples := samples, nb_samples := nb_samples }
  | .error i => .error i

/-- The read loop of `main` (lines 387-437) as seen by the recognizer: the
filtered frames are passed to `sherpa_decode_frame` one after the other. -/
def main_loop {σ : Type} (r : Recognizer σ) : List AVFrame → State σ → Except Nat (State σ)
  | [], st => .ok st
  | frame :: frames, st =>
    match sherpa_decode_frame r frame st with
    | .ok st => main_loop r frames st
    | .error i => .error i

/-- The array `float tail_paddings[4800] = {0}` of line 440 (0.3 s of silence). -/
def tail_paddings : List Sample := List.replicate 4800 0

/-- Lines 439-447: the stream after the tail padding, `InputFinished` and the
last decode loop. -/
def final_stream {σ : Type} (r : Recognizer σ) (s : σ) : σ :=
  let s := r.AcceptWaveform s tail_paddings
  let s := r.InputFinished s
  pump r s

/-- Lines 439-455 of `main`: the end-of-stream steps. -/
def finalize {σ : Type} (r : Recognizer σ) (st : State σ) : State σ :=
  let s := final_stream r st.s
  let text := r.GetResult s
  { st with s := s
            accepted := st.accepted ++ [tail_paddings]
            emitter := (print_if_new text st.emitter).2 }

/-- The run of `main` from the first frame to the last `Print`. -/
def main_run {σ : Type} (r : Recognizer σ) (s0 : σ) (frames : List AVFrame) :
    Except Nat (State σ) :=
  match main_loop r frames (State.init s0) with
  | .ok st => .ok (finalize r st)
  | .error i => .error i

/-- A sequence of observations applied in order. -/
def observe_all : List (String × Bool) → Emitter → Emitter
  | [], e => e
  | (text, is_endpoint) :: rest, e => observe_all rest (observe text is_endpoint e)

/-! ### Command line -/

/-- The libc predicate `isspace` in the "C" locale. -/
def isspace (c : Char) : Bool :=
  c.toNat = 32 ∨ (9 ≤ c.toNat ∧ c.toNat ≤ 13)

/-- The digits read by `atoi`, accumulated in base ten. -/
def atoi_digits : List Char → Int → Int
  | [], acc => acc
  | c :: cs, acc =>
    if '0' ≤ c ∧ c ≤ '9' then atoi_digits cs (acc * 10 + ((c.toNat : Int) - 48)) else acc

/-- The libc function `strtol` in base ten, as `atoi` uses it: leading white
space, an optional sign, then the longest run of decimal digits (0 when
there is none); a value outside `long` is replaced by the nearest bound. -/
def strtol (str : String) : Int :=
  let v : Int :=
    match str.data.dropWhile isspace with
    | '-' :: ds => - atoi_digits ds 0
    | '+' :: ds => atoi_digits ds 0
    | ds => atoi_digits ds 0
  max (-9223372036854775808) (min v 9223372036854775807)

/-- The libc function `atoi`, which glibc defines as `(int) strtol(nptr, NULL, 10)`:
the value of `strtol` narrowed to `int`. -/
def atoi (str : String) : Int := to_int32 (strtol str)

/-- Lines 301-348 of `main`: `none` when the argument count is refused (usage
message, `return -1`), otherwise the value stored in the three
`num_threads` options. -/
def main_num_threads (argv : List String) : Option Int :=
  let argc := argv.length
  if argc < 9 ∨ argc > 11 then none
  else
    let num_threads : Int := 4
    let num_threads :=
      if argc ≥ 9 ∧ atoi (argv.getD 8 "") > 0 then atoi (argv.getD 8 "") else num_threads
    some num_threads

/-! ## Recognizers used in the examples -/

/-- A recognizer that is never ready, never at an endpoint, and always reports
the same text. -/
def constRecognizer (text : String) : Recognizer Unit :=
  { AcceptWaveform := fun s _ => s
    IsReady := fun _ => false
    DecodeStream := fun s => s
    IsEndpoint := fun _ => false
    GetResult := fun _ => text
    Reset := fun s => s
    InputFinished := fun s => s
    pending := fun _ => 0
    pending_decreases := by intro s h; cases h }

/-- What a step printed: the entries of the display after the step that were
not there before it. -/
def emissions (before after : Emitter) : List (Int × String) :=
  after.display.drop before.display.length

/-- The normalized samples of a sequence of frames, in arrival order. -/
def all_samples (frames : List AVFrame) : List Sample :=
  (frames.map (fun frame => frame.data.map normalize)).flatten

/-- The samples currently held: `samples[0 .. nb_samples)`. -/
def State.buffer {σ : Type} (st : State σ) : List Sample :=
  st.samples.take st.nb_samples

/-- The array `samples` has its `N` cells and `nb_samples` does not exceed `N`. -/
def State.well_formed {σ : Type} (st : State σ) : Prop :=
  st.samples.length = N ∧ st.nb_samples ≤ N

/-- A non-empty `last_text` is the text of the most recent print, and that
print carries the current segment index. -/
def last_printed (e : Emitter) : Prop :=
  e.last_text ≠ "" →
    e.display.getLast? = some (e.segment_index, lowercase e.last_text)

/-- An ASCII upper-case letter. -/
def is_upper (c : Char) : Prop := 'A' ≤ c ∧ c ≤ 'Z'

/-! ## Lemmas on the emitter -/

theorem to_int32_of_range (v : Int) (h : int32_range v) : to_int32 v = v := by
  unfold int32_range at h
  unfold to_int32
  omega

theorem lowercase_eq_empty (text : String) : lowercase text = "" ↔ text = "" := by
  cases text with
  | mk cs =>
    cases cs with
    | nil => simp [lowercase]
    | cons c cs =>
      constructor
      · intro h
        have := congrArg String.data h
        simp [lowercase] at this
      · intro h
        have := congrArg String.data h
        simp at this

theorem char_le_iff (a b : Char) : a ≤ b ↔ a.toNat ≤ b.toNat := Iff.rfl

theorem toNat_ofNat_small (n : Nat) (h : n < 55296) : (Char.ofNat n).toNat = n := by
  unfold Char.ofNat
  have hv : n.isValidChar := Or.inl h
  simp only [hv, dite_true]
  unfold Char.ofNatAux Char.toNat
  simp [UInt32.toNat]

theorem is_upper_iff (c : Char) : is_upper c ↔ 65 ≤ c.toNat ∧ c.toNat ≤ 90 := by
  unfold is_upper
  rw [char_le_iff, char_le_iff]
  have hA : ('A' : Char).toNat = 65 := by decide
  have hZ : ('Z' : Char).toNat = 90 := by decide
  rw [hA, hZ]

/-- A capital letter goes to the letter 32 code points further, the lower-case
letter of the same name; every other character is kept. -/
theorem tolower_spec (c : Char) :
    (is_upper c → (tolower c).toNat = c.toNat + 32) ∧ (¬ is_upper c → tolower c = c) := by
  constructor
  · intro h
    have h1 := (is_upper_iff c).1 h
    unfold is_upper at h
    unfold tolower
    rw [if_pos h, toNat_ofNat_small _ (by omega)]
  · intro h
    unfold is_upper at h
    unfold tolower
    rw [if_neg h]

theorem tolower_eq_toLower (c : Char) : tolower c = c.toLower := by
  unfold Char.toLower
  by_cases h : is_upper c
  · have h1 := (is_upper_iff c).1 h
    unfold is_upper at h
    unfold tolower
    rw [if_pos h]
    simp [h1.1, h1.2]
  · have h1 : ¬ (65 ≤ c.toNat ∧ c.toNat ≤ 90) := fun hc => h ((is_upper_iff c).2 hc)
    rw [(tolower_spec c).2 h]
    simp only [ge_iff_le]
    rw [if_neg h1]

theorem tolower_not_upper (c : Char) : ¬ is_upper (tolower c) := by
  intro hup
  have h2 := (is_upper_iff _).1 hup
  by_cases h : is_upper c
  · have h1 := (is_upper_iff c).1 h
    rw [(tolower_spec c).1 h] at h2
    omega
  · rw [(tolower_spec c).2 h] at hup
    exact h hup

theorem lowercase_no_upper (text : String) : ∀ c ∈ (lowercase text).data, ¬ is_upper c := by
  intro c hc
  simp only [lowercase, List.mem_map] at hc
  obtain ⟨a, _, rfl⟩ := hc
  exact tolower_not_upper a

/-- Lower-casing works character by character: same length, capitals moved
by 32 code points, the rest kept. -/
theorem lowercase_pointwise (text : String) :
    List.Forall₂ (fun c d => (is_upper c → d.toNat = c.toNat + 32) ∧ (¬ is_upper c → d = c))
      text.data (lowercase text).data := by
  show List.Forall₂ _ text.data (text.data.map tolower)
  induction text.data with
  | nil => exact List.Forall₂.nil
  | cons c cs ih => exact List.Forall₂.cons (tolower_spec c) ih

theorem emissions_append (e e1 : Emitter) (l : List (Int × String))
    (h : e1.display = e.display ++ l) : emissions e e1 = l := by
  simp [emissions, h]

/-- The emitter after one observation, field by field. -/
theorem observe_eq (text : String) (is_endpoint : Bool) (e : Emitter) :
    observe text is_endpoint e =
      { last_text := if text ≠ "" ∧ e.last_text ≠ text then text else e.last_text
        segment_index :=
          if is_endpoint = true ∧ text ≠ "" then to_int32 (e.segment_index + 1)
          else e.segment_index
        display := e.display ++
          (if text ≠ "" ∧ e.last_text ≠ text then [(e.segment_index, lowercase text)] else []) } := by
  obtain ⟨lt, si, d⟩ := e
  unfold observe print_if_new
  by_cases h1 : text = ""
  · subst h1; cases is_endpoint <;> simp
  · have h2 : lowercase text ≠ "" := fun h => h1 ((lowercase_eq_empty text).1 h)
    by_cases h3 : lt = text <;> cases is_endpoint <;> simp [h1, h2, h3]

theorem observe_display (text : String) (is_endpoint : Bool) (e : Emitter) :
    (observe text is_endpoint e).display = e.display ++
      (if text ≠ "" ∧ e.last_text ≠ text then [(e.segment_index, lowercase text)] else []) := by
  rw [observe_eq]

theorem observe_segment_index (text : String) (is_endpoint : Bool) (e : Emitter) :
    (observe text is_endpoint e).segment_index =
      if is_endpoint = true ∧ text ≠ "" then to_int32 (e.segment_index + 1)
      else e.segment_index := by
  rw [observe_eq]

/-- Below the largest `int32_t` the increment is the mathematical one. -/
theorem observe_segment_index_of_range (text : String) (is_endpoint : Bool) (e : Emitter)
    (hlo : -2147483648 ≤ e.segment_index) (hhi : e.segment_index < 2147483647) :
    (observe text is_endpoint e).segment_index =
      e.segment_index + (if is_endpoint = true ∧ text ≠ "" then 1 else 0) := by
  rw [observe_segment_index]
  split
  · exact to_int32_of_range _ ⟨by omega, by omega⟩
  · omega

theorem observe_last_text (text : String) (is_endpoint : Bool) (e : Emitter) :
    (observe text is_endpoint e).last_text =
      if text ≠ "" ∧ e.last_text ≠ text then text else e.last_text := by
  rw [observe_eq]

theorem observe_emissions (text : String) (is_endpoint : Bool) (e : Emitter) :
    emissions e (observe text is_endpoint e) =
      if text ≠ "" ∧ e.last_text ≠ text then [(e.segment_index, lowercase text)] else [] :=
  emissions_append _ _ _ (observe_display text is_endpoint e)

/-- A sequence of observations only appends to the display, and every text it
appends is non-empty and without capitals. -/
theorem observe_all_display (obs : List (String × Bool)) : ∀ e : Emitter,
    ∃ l, (observe_all obs e).display = e.display ++ l ∧
      ∀ p ∈ l, p.2 ≠ "" ∧ ∀ c ∈ p.2.data, ¬ is_upper c := by
  induction obs with
  | nil => intro e; exact ⟨[], by simp [observe_all]⟩
  | cons o rest ih =>
    intro e
    obtain ⟨text, ep⟩ := o
    obtain ⟨l, hl, hmem⟩ := ih (observe text ep e)
    refine ⟨(if text ≠ "" ∧ e.last_text ≠ text then [(e.segment_index, lowercase text)]
        else []) ++ l, ?_, ?_⟩
    · simp only [observe_all, hl, observe_display, List.append_assoc]
    · intro p hp
      rcases List.mem_append.1 hp with hp | hp
      · split at hp
        · rename_i hc
          simp only [List.mem_singleton] at hp
          subst hp
          exact ⟨fun h => hc.1 ((lowercase_eq_empty text).1 h), lowercase_no_upper text⟩
        · simp at hp
      · exact hmem p hp

/-- The number of endpoints with non-empty text in a sequence of observations. -/
theorem count_cons (text : String) (ep : Bool) (rest : List (String × Bool)) :
    (((text, ep) :: rest).countP (fun o => o.2 && decide (o.1 ≠ "")) : Int) =
      (if ep = true ∧ text ≠ "" then 1 else 0) +
        (rest.countP (fun o => o.2 && decide (o.1 ≠ "")) : Int) := by
  rw [List.countP_cons]
  cases ep <;> by_cases ht : text = "" <;> simp [ht]
  omega

/-- What a sequence of observations does to the index while it stays within
`int32_t`: it advances by the number of endpoints with text, and the
display grows by entries that carry indices between the old and the new
index, in non-decreasing order. -/
theorem observe_all_spec (obs : List (String × Bool)) : ∀ e : Emitter,
    -2147483648 ≤ e.segment_index →
    e.segment_index + obs.countP (fun o => o.2 && decide (o.1 ≠ "")) ≤ 2147483647 →
    (observe_all obs e).segment_index =
        e.segment_index + obs.countP (fun o => o.2 && decide (o.1 ≠ "")) ∧
    ∃ l, (observe_all obs e).display = e.display ++ l ∧
      (∀ p ∈ l, e.segment_index ≤ p.1 ∧ p.1 ≤ (observe_all obs e).segment_index) ∧
      List.Pairwise (fun i j => i ≤ j) (l.map Prod.fst) := by
  induction obs with
  | nil => intro e _ _; simp [observe_all]
  | cons o rest ih =>
    intro e hlo hhi
    obtain ⟨text, ep⟩ := o
    rw [count_cons] at hhi ⊢
    have hrest : (0 : Int) ≤ (rest.countP (fun o => o.2 && decide (o.1 ≠ "")) : Int) :=
      Int.ofNat_nonneg _
    have hstep : (observe text ep e).segment_index =
        e.segment_index + (if ep = true ∧ text ≠ "" then 1 else 0) := by
      rw [observe_segment_index]
      by_cases hc : ep = true ∧ text ≠ ""
      · rw [if_pos hc] at hhi
        rw [if_pos hc, if_pos hc]
        exact to_int32_of_range _ ⟨by omega, by omega⟩
      · rw [if_neg hc, if_neg hc]; omega
    have hmono : e.segment_index ≤ (observe text ep e).segment_index := by
      rw [hstep]; split <;> omega
    obtain ⟨hseg, l, hl, hmem, hsorted⟩ := ih (observe text ep e) (by omega)
      (by rw [hstep]; omega)
    have hfinal : (observe_all ((text, ep) :: rest) e).segment_index =
        e.segment_index + ((if ep = true ∧ text ≠ "" then 1 else 0) +
          (rest.countP (fun o => o.2 && decide (o.1 ≠ "")) : Int)) := by
      show (observe_all rest (observe text ep e)).segment_index = _
      rw [hseg, hstep]; omega
    refine ⟨hfinal, (if text ≠ "" ∧ e.last_text ≠ text then
        [(e.segment_index, lowercase text)] else []) ++ l, ?_, ?_, ?_⟩
    · simp only [observe_all, hl, observe_display, List.append_assoc]
    · intro p hp
      rcases List.mem_append.1 hp with hp | hp
      · split at hp
        · simp only [List.mem_singleton] at hp
          subst hp
          refine ⟨le_refl _, ?_⟩
          rw [hfinal]
          show e.segment_index ≤ _
          split <;> omega
        · simp at hp
      · obtain ⟨h1, h1b⟩ := hmem p hp
        exact ⟨le_trans hmono h1, h1b⟩
    · rw [List.map_append, List.pairwise_append]
      refine ⟨?_, hsorted, ?_⟩
      · split <;> simp
      · intro i hi j hj
        obtain ⟨q, hq, rfl⟩ := List.mem_map.1 hj
        have hq1 := (hmem q hq).1
        split at hi
        · simp only [List.map_cons, List.map_nil, List.mem_singleton] at hi
          subst hi
          exact le_trans hmono hq1
        · simp at hi

/-! ## The segment emitter: claims C7, C6, C4, C2 -/

/-- C7. Emission rule of one observation: for every state and every text, the
observation prints exactly when the text is non-empty and differs from
`last_text`; it then prints the single pair (index before any increment,
ASCII-lower-cased text) and stores the original text in `last_text`;
otherwise it prints nothing and `last_text` is unchanged. The lower-cased
text has the characters of the text in the same order, each capital
`A`-`Z` replaced by the letter 32 code points further (its lower-case
form, as `Char.toLower` gives it) and every other character kept. No
printed text is empty or contains an ASCII upper-case letter. -/
theorem observe_emission_rule (text : String) (is_endpoint : Bool) (e : Emitter) :
    (emissions e (observe text is_endpoint e) ≠ [] ↔ (text ≠ "" ∧ text ≠ e.last_text)) ∧
    emissions e (observe text is_endpoint e) =
      (if text ≠ "" ∧ text ≠ e.last_text then [(e.segment_index, lowercase text)] else []) ∧
    (observe text is_endpoint e).last_text =
      (if text ≠ "" ∧ text ≠ e.last_text then text else e.last_text) ∧
    (lowercase text).data = text.data.map Char.toLower ∧
    List.Forall₂ (fun c d => (is_upper c → d.toNat = c.toNat + 32) ∧ (¬ is_upper c → d = c))
      text.data (lowercase text).data ∧
    lowercase "Hello, World 42" = "hello, world 42" ∧
    (∀ p ∈ emissions e (observe text is_endpoint e),
      p.2 ≠ "" ∧ ∀ c ∈ p.2.data, ¬ is_upper c) ∧
    (∀ (obs : List (String × Bool)), ∀ p ∈ emissions e (observe_all obs e),
      p.2 ≠ "" ∧ ∀ c ∈ p.2.data, ¬ is_upper c) := by
  rw [observe_emissions, observe_last_text]
  have hcomm : (text ≠ "" ∧ e.last_text ≠ text) ↔ (text ≠ "" ∧ text ≠ e.last_text) :=
    and_congr_right fun _ => ne_comm
  simp only [hcomm]
  refine ⟨?_, trivial, trivial, ?_, lowercase_pointwise text, by decide, ?_, ?_⟩
  · by_cases h : text ≠ "" ∧ text ≠ e.last_text <;> simp [h]
  · show text.data.map tolower = text.data.map Char.toLower
    exact List.map_congr_left (fun c _ => tolower_eq_toLower c)
  · intro p hp
    split at hp
    · rename_i hc
      simp only [List.mem_singleton] at hp
      subst hp
      exact ⟨fun h => hc.1 ((lowercase_eq_empty text).1 h), lowercase_no_upper text⟩
    · simp at hp
  · intro obs p hp
    obtain ⟨l, hl, hmem⟩ := observe_all_display obs e
    rw [emissions_append e _ l hl] at hp
    exact hmem p hp

/-- C6. Dedup idempotence: for a non-empty text that differs from `last_text`,
two successive observations of it without endpoint print exactly one pair
in total, and the second observation changes nothing (no print, same
`last_text`, same index). -/
theorem observe_twice_emits_once (text : String) (e : Emitter)
    (htext : text ≠ "") (hcache : e.last_text ≠ text) :
    emissions e (observe text false (observe text false e)) =
        [(e.segment_index, lowercase text)] ∧
    emissions (observe text false e) (observe text false (observe text false e)) = [] ∧
    observe text false (observe text false e) = observe text false e := by
  have h1 : observe text false e =
      { last_text := text, segment_index := e.segment_index,
        display := e.display ++ [(e.segment_index, lowercase text)] } := by
    rw [observe_eq]; simp [htext, hcache]
  have h2 : observe text false (observe text false e) = observe text false e := by
    rw [h1, observe_eq]; simp
  refine ⟨?_, ?_, h2⟩
  · rw [h2, observe_emissions]; simp [htext, hcache]
  · rw [h2]; simp [emissions]

/-- Witness of C6 at the initial emitter state and the text "Hello". -/
theorem observe_twice_emits_once_witness :
    emissions ⟨"", 0, []⟩ (observe "Hello" false (observe "Hello" false ⟨"", 0, []⟩)) =
        [(0, lowercase "Hello")] ∧
    emissions (observe "Hello" false ⟨"", 0, []⟩)
        (observe "Hello" false (observe "Hello" false ⟨"", 0, []⟩)) = [] ∧
    observe "Hello" false (observe "Hello" false ⟨"", 0, []⟩) =
        observe "Hello" false ⟨"", 0, []⟩ :=
  observe_twice_emits_once "Hello" ⟨"", 0, []⟩ (by decide) (by decide)

/-- C4, as stated, fails at the largest `int32_t`. From the index 2147483647 an
endpoint with non-empty text does not add 1: the index becomes
-2147483648; and the indices printed by the two observations ("a", endpoint),
("b", no endpoint) are 2147483647 then -2147483648, which is decreasing. -/
theorem segment_index_overflow_counterexample :
    (observe "a" true ⟨"", 2147483647, []⟩).segment_index = -2147483648 ∧
    (observe "a" true ⟨"", 2147483647, []⟩).segment_index ≠ 2147483647 + 1 ∧
    emissions ⟨"", 2147483647, []⟩
        (observe_all [("a", true), ("b", false)] ⟨"", 2147483647, []⟩) =
      [(2147483647, "a"), (-2147483648, "b")] ∧
    ¬ List.Pairwise (fun i j => i ≤ j)
        ((emissions ⟨"", 2147483647, []⟩
          (observe_all [("a", true), ("b", false)] ⟨"", 2147483647, []⟩)).map Prod.fst) := by
  decide

/-- C4, amended. Segment monotonicity while the index stays within `int32_t`: for
every sequence of observations from an index in range whose endpoints
with non-empty text do not take the index beyond 2147483647, one
observation adds 1 to the segment index when it is an endpoint with
non-empty text and 0 otherwise; the sequence adds the number of its
endpoints with non-empty text; the indices it prints are non-decreasing in
print order and lie between the initial and the final index; an endpoint
with empty text prints nothing and leaves the state as it is. -/
theorem segment_index_monotone (obs : List (String × Bool)) (e : Emitter)
    (hlo : -2147483648 ≤ e.segment_index)
    (hhi : e.segment_index + obs.countP (fun o => o.2 && decide (o.1 ≠ "")) ≤ 2147483647) :
    (∀ (text : String) (is_endpoint : Bool) (e1 : Emitter),
      -2147483648 ≤ e1.segment_index → e1.segment_index < 2147483647 →
      (observe text is_endpoint e1).segment_index =
        e1.segment_index + (if is_endpoint = true ∧ text ≠ "" then 1 else 0)) ∧
    (observe_all obs e).segment_index =
      e.segment_index + obs.countP (fun o => o.2 && decide (o.1 ≠ "")) ∧
    List.Pairwise (fun i j => i ≤ j) ((emissions e (observe_all obs e)).map Prod.fst) ∧
    (∀ p ∈ emissions e (observe_all obs e),
      e.segment_index ≤ p.1 ∧ p.1 ≤ (observe_all obs e).segment_index) ∧
    (∀ e1 : Emitter, observe "" true e1 = e1 ∧ emissions e1 (observe "" true e1) = []) := by
  obtain ⟨hseg, l, hl, hmem, hsorted⟩ := observe_all_spec obs e hlo hhi
  rw [emissions_append e _ l hl]
  refine ⟨observe_segment_index_of_range, hseg, hsorted, hmem, ?_⟩
  intro e1
  have : observe "" true e1 = e1 := by rw [observe_eq]; simp
  rw [this]; simp [emissions]

/-- Witness of the amended C4: from the initial emitter state, a text, an endpoint
with a longer text, an endpoint with empty text, and a text of the next
segment. -/
theorem segment_index_monotone_witness :
    (-2147483648 ≤ (Emitter.mk "" 0 []).segment_index) ∧
    ((Emitter.mk "" 0 []).segment_index +
      [("hello", false), ("hello world", true), ("", true), ("bye", false)].countP
        (fun o => o.2 && decide (o.1 ≠ "")) ≤ 2147483647) ∧
    (observe_all [("hello", false), ("hello world", true), ("", true), ("bye", false)]
      ⟨"", 0, []⟩).segment_index = 1 ∧
    emissions ⟨"", 0, []⟩
        (observe_all [("hello", false), ("hello world", true), ("", true), ("bye", false)]
          ⟨"", 0, []⟩) = [(0, "hello"), (0, "hello world"), (1, "bye")] ∧
    List.Pairwise (fun i j => i ≤ j)
      ((emissions ⟨"", 0, []⟩
        (observe_all [("hello", false), ("hello world", true), ("", true), ("bye", false)]
          ⟨"", 0, []⟩)).map Prod.fst) :=
  ⟨by decide, by decide, by decide, by decide,
    (segment_index_monotone
      [("hello", false), ("hello world", true), ("", true), ("bye", false)] ⟨"", 0, []⟩
      (by decide) (by decide)).2.2.1⟩

/-- C2, as stated, fails: after `Observe("hello", false)`,
`Observe("hello world", false)`, `Observe("hello world", true)` the value of
`last_text` is still "hello world", not empty, the index is 1, and a further
`Observe("hello world", false)` prints nothing instead of `(1, "hello world")`. -/
theorem endpoint_reset_counterexample :
    (observe "hello world" true (observe "hello world" false
        (observe "hello" false ⟨"", 0, []⟩))).last_text = "hello world" ∧
    (observe "hello world" true (observe "hello world" false
        (observe "hello" false ⟨"", 0, []⟩))).last_text ≠ "" ∧
    (observe "hello world" true (observe "hello world" false
        (observe "hello" false ⟨"", 0, []⟩))).segment_index = 1 ∧
    emissions
        (observe "hello world" true (observe "hello world" false
          (observe "hello" false ⟨"", 0, []⟩)))
        (observe "hello world" false (observe "hello world" true
          (observe "hello world" false (observe "hello" false ⟨"", 0, []⟩)))) = [] ∧
    emissions
        (observe "hello world" true (observe "hello world" false
          (observe "hello" false ⟨"", 0, []⟩)))
        (observe "hello world" false (observe "hello world" true
          (observe "hello world" false (observe "hello" false ⟨"", 0, []⟩))))
      ≠ [(1, "hello world")] := by
  decide

/-- C2, amended. An endpoint does not touch `last_text`: for every state and
every non-empty text, after an observation of that text with
`is_endpoint = true` the value of `last_text` is that text; the next
observation prints nothing when its text is the same, and prints once,
under the index the endpoint left, when its text is non-empty and
different. The endpoint advances the index by one as an `int32_t`: by
exactly one when the index is in range and below 2147483647. -/
theorem endpoint_keeps_last_text (text : String) (e : Emitter) (htext : text ≠ "") :
    (observe text true e).last_text = text ∧
    (observe text true e).segment_index = to_int32 (e.segment_index + 1) ∧
    (-2147483648 ≤ e.segment_index → e.segment_index < 2147483647 →
      (observe text true e).segment_index = e.segment_index + 1) ∧
    (∀ is_endpoint : Bool,
      emissions (observe text true e) (observe text is_endpoint (observe text true e)) = []) ∧
    (∀ (next : String) (is_endpoint : Bool), next ≠ "" → next ≠ text →
      emissions (observe text true e) (observe next is_endpoint (observe text true e)) =
        [((observe text true e).segment_index, lowercase next)]) := by
  have hlast : (observe text true e).last_text = text := by
    rw [observe_last_text]
    by_cases h : e.last_text = text <;> simp [h, htext]
  have hseg : (observe text true e).segment_index = to_int32 (e.segment_index + 1) := by
    rw [observe_segment_index]; simp [htext]
  refine ⟨hlast, hseg, ?_, ?_, ?_⟩
  · intro hlo hhi
    rw [hseg]
    exact to_int32_of_range _ ⟨by omega, by omega⟩
  · intro is_endpoint
    rw [observe_emissions, hlast]; simp
  · intro next is_endpoint hnext hne
    rw [observe_emissions, hlast]
    simp [hnext, Ne.symm hne]

/-- Witness of the amended C2 on the scenario of the specification: the state
reached by `Observe("hello", false)`, `Observe("hello world", false)`, and the
text "hello world"; the index goes from 0 to 1, the repeated text is not
printed, and a different text is printed under the index 1. -/
theorem endpoint_keeps_last_text_witness :
    ("hello world" ≠ "") ∧
    observe "hello world" false (observe "hello" false ⟨"", 0, []⟩) =
      ⟨"hello world", 0, [(0, "hello"), (0, "hello world")]⟩ ∧
    (observe "hello world" true
        ⟨"hello world", 0, [(0, "hello"), (0, "hello world")]⟩).last_text = "hello world" ∧
    (observe "hello world" true
        ⟨"hello world", 0, [(0, "hello"), (0, "hello world")]⟩).segment_index = 0 + 1 ∧
    emissions
        (observe "hello world" true ⟨"hello world", 0, [(0, "hello"), (0, "hello world")]⟩)
        (observe "hello world" false
          (observe "hello world" true
            ⟨"hello world", 0, [(0, "hello"), (0, "hello world")]⟩)) = [] :=
  ⟨by decide, by decide,
   (endpoint_keeps_last_text "hello world"
      ⟨"hello world", 0, [(0, "hello"), (0, "hello world")]⟩ (by decide)).1,
   (endpoint_keeps_last_text "hello world"
      ⟨"hello world", 0, [(0, "hello"), (0, "hello world")]⟩ (by decide)).2.2.1
      (by decide) (by decide),
   (endpoint_keeps_last_text "hello world"
      ⟨"hello world", 0, [(0, "hello"), (0, "hello world")]⟩ (by decide)).2.2.2.1 false⟩

/-! ## Lemmas on the accumulator -/

theorem take_set_succ {α : Type} (v : α) :
    ∀ (l : List α) (n : Nat), n < l.length → (l.set n v).take (n + 1) = l.take n ++ [v]
  | [], n, h => by simp at h
  | a :: l, 0, _ => by simp
  | a :: l, n + 1, h => by
    have h1 : n < l.length := by simpa using h
    simp [take_set_succ v l n h1]

theorem write_samples_ok : ∀ (data : List Int) (samples : List Sample) (nb : Nat),
    nb + data.length ≤ N → N ≤ samples.length →
    ∃ samples1, write_samples data samples nb = .ok (samples1, nb + data.length) ∧
      samples1.length = samples.length ∧
      samples1.take (nb + data.length) = samples.take nb ++ data.map normalize
  | [], samples, nb, _, _ => ⟨samples, by simp [write_samples]⟩
  | p :: ps, samples, nb, h1, h2 => by
    have hlen : (p :: ps).length = ps.length + 1 := rfl
    have hnb : nb < N := by omega
    obtain ⟨samples1, hw, hl, ht⟩ :=
      write_samples_ok ps (samples.set nb (normalize p)) (nb + 1) (by omega) (by simpa using h2)
    refine ⟨samples1, ?_, ?_, ?_⟩
    · rw [write_samples, if_pos hnb, hw, hlen]
      congr 2; omega
    · simpa using hl
    · have e1 : nb + (p :: ps).length = nb + 1 + ps.length := by omega
      rw [e1, ht, take_set_succ _ _ _ (by omega)]
      simp

theorem write_samples_error : ∀ (data : List Int) (samples : List Sample) (nb : Nat),
    nb ≤ N → N < nb + data.length → write_samples data samples nb = .error N
  | [], _, nb, h1, h2 => by simp at h2; omega
  | p :: ps, samples, nb, h1, h2 => by
    have hlen : (p :: ps).length = ps.length + 1 := rfl
    by_cases hnb : nb < N
    · rw [write_samples, if_pos hnb]
      exact write_samples_error ps _ (nb + 1) (by omega) (by omega)
    · have : nb = N := by omega
      rw [write_samples, if_neg hnb, this]

theorem init_well_formed {σ : Type} (s0 : σ) : (State.init s0).well_formed := by
  simp [State.well_formed, State.init]

/-- A call that does not dispatch: the frame is appended to the buffer and
nothing else changes. -/
theorem sherpa_decode_frame_append {σ : Type} (r : Recognizer σ) (frame : AVFrame)
    (st : State σ) (hst : st.well_formed) (h : frame.nb_samples + st.nb_samples < N) :
    ∃ st1, sherpa_decode_frame r frame st = .ok st1 ∧ st1.well_formed ∧
      st1.nb_samples = st.nb_samples + frame.nb_samples ∧
      st1.buffer = st.buffer ++ frame.data.map normalize ∧
      st1.accepted = st.accepted ∧ st1.emitter = st.emitter ∧ st1.s = st.s := by
  obtain ⟨hlen, hnb⟩ := hst
  have hf : st.nb_samples + frame.data.length ≤ N := by
    simp only [AVFrame.nb_samples] at h; omega
  obtain ⟨samples1, hw, hl, ht⟩ := write_samples_ok frame.data st.samples st.nb_samples hf
    (by omega)
  refine ⟨{ st with samples := samples1, nb_samples := st.nb_samples + frame.data.length },
    ?_, ?_, rfl, ?_, rfl, rfl, rfl⟩
  · unfold sherpa_decode_frame
    simp only [ge_iff_le, Nat.not_le.2 h, if_false, hw]
  · exact ⟨by simp [hl, hlen], hf⟩
  · simpa [State.buffer] using ht

/-- A call that dispatches: the buffer goes to the recognizer as one block,
the observation is made, and the frame becomes the new buffer content. -/
theorem sherpa_decode_frame_dispatch {σ : Type} (r : Recognizer σ) (frame : AVFrame)
    (st : State σ) (hst : st.well_formed) (h : N ≤ frame.nb_samples + st.nb_samples)
    (hframe : frame.nb_samples ≤ N) :
    ∃ st1, sherpa_decode_frame r frame st = .ok st1 ∧ st1.well_formed ∧
      st1.nb_samples = frame.nb_samples ∧
      st1.buffer = frame.data.map normalize ∧
      st1.accepted = st.accepted ++ [st.buffer] ∧
      st1.emitter = (dispatch r st).emitter ∧ st1.s = (dispatch r st).s ∧
      st1.observed = (dispatch r st).observed := by
  obtain ⟨hlen, hnb⟩ := hst
  have hf : 0 + frame.data.length ≤ N := by
    simp only [AVFrame.nb_samples] at hframe; omega
  obtain ⟨samples1, hw, hl, ht⟩ := write_samples_ok frame.data st.samples 0 hf (by omega)
  simp only [Nat.zero_add] at hw ht
  refine ⟨{ dispatch r st with samples := samples1, nb_samples := frame.data.length },
    ?_, ?_, rfl, ?_, rfl, rfl, rfl, rfl⟩
  · unfold sherpa_decode_frame
    simp only [ge_iff_le, h, if_true]
    have e1 : (dispatch r st).samples = st.samples := rfl
    have e2 : (dispatch r st).nb_samples = 0 := rfl
    rw [e1, e2, hw]
  · exact ⟨by simp [hl, hlen], by simpa using hf⟩
  · simpa [State.buffer] using ht

/-- The state after the read loop, for frames of at most `N` samples each. -/
theorem main_loop_spec {σ : Type} (r : Recognizer σ) : ∀ (frames : List AVFrame) (st : State σ),
    st.well_formed → (∀ frame ∈ frames, frame.nb_samples ≤ N) →
    ∃ st1, main_loop r frames st = .ok st1 ∧ st1.well_formed ∧
      st1.accepted.flatten ++ st1.buffer =
        st.accepted.flatten ++ st.buffer ++ all_samples frames ∧
      ∃ ws, st1.accepted = st.accepted ++ ws ∧ ∀ w ∈ ws, w.length ≤ N
  | [], st, hst, _ => ⟨st, rfl, hst, by simp [all_samples], [], by simp⟩
  | frame :: frames, st, hst, hall => by
    have hframe : frame.nb_samples ≤ N := hall frame (List.mem_cons_self _ _)
    have hrest : ∀ f ∈ frames, f.nb_samples ≤ N := fun f hf => hall f (List.mem_cons_of_mem _ hf)
    by_cases h : N ≤ frame.nb_samples + st.nb_samples
    · obtain ⟨st1, hok, hwf, _, hbuf, hacc, _, _⟩ :=
        sherpa_decode_frame_dispatch r frame st hst h hframe
      obtain ⟨st2, hok2, hwf2, hcat, ws, hws, hle⟩ := main_loop_spec r frames st1 hwf hrest
      refine ⟨st2, by simp only [main_loop, hok, hok2], hwf2, ?_, st.buffer :: ws, ?_, ?_⟩
      · rw [hcat, hbuf, hacc]; simp [all_samples]
      · rw [hws, hacc]; simp
      · intro w hw
        rcases List.mem_cons.1 hw with hw | hw
        · subst hw
          simp only [State.buffer, List.length_take]
          exact le_trans (Nat.min_le_left _ _) hst.2
        · exact hle w hw
    · obtain ⟨st1, hok, hwf, _, hbuf, hacc, _, _⟩ :=
        sherpa_decode_frame_append r frame st hst (Nat.not_le.1 h)
      obtain ⟨st2, hok2, hwf2, hcat, ws, hws, hle⟩ := main_loop_spec r frames st1 hwf hrest
      refine ⟨st2, by simp only [main_loop, hok, hok2], hwf2, ?_, ws, ?_, hle⟩
      · rw [hcat, hbuf, hacc]; simp [all_samples]
      · rw [hws, hacc]

theorem main_loop_append {σ : Type} (r : Recognizer σ) :
    ∀ (frames more : List AVFrame) (st st1 : State σ),
    main_loop r frames st = .ok st1 → main_loop r (frames ++ more) st = main_loop r more st1
  | [], more, st, st1, h => by
    simp only [main_loop, Except.ok.injEq] at h
    subst h; rfl
  | frame :: frames, more, st, st1, h => by
    simp only [main_loop, List.cons_append] at h ⊢
    cases hstep : sherpa_decode_frame r frame st with
    | error i => simp [hstep] at h
    | ok st2 =>
      simp only [hstep] at h ⊢
      exact main_loop_append r frames more st2 st1 h

theorem main_loop_one {σ : Type} (r : Recognizer σ) (frame : AVFrame) (st st1 : State σ)
    (h : sherpa_decode_frame r frame st = .ok st1) : main_loop r [frame] st = .ok st1 := by
  simp only [main_loop, h]

theorem main_run_ok {σ : Type} (r : Recognizer σ) (s0 : σ) (frames : List AVFrame)
    (st : State σ) (h : main_loop r frames (State.init s0) = .ok st) :
    main_run r s0 frames = .ok (finalize r st) := by
  simp only [main_run, h]

theorem buffer_length {σ : Type} (st : State σ) (hst : st.well_formed) :
    st.buffer.length = st.nb_samples := by
  simp only [State.buffer, List.length_take, hst.1]
  exact Nat.min_eq_left hst.2

/-- Two frames from the initial state, the second one reaching the capacity:
the first frame is dispatched as one block during the second call. -/
theorem main_loop_two_frames {σ : Type} (r : Recognizer σ) (s0 : σ) (f1 f2 : AVFrame)
    (h1 : f1.nb_samples < N) (h2 : N ≤ f2.nb_samples + f1.nb_samples)
    (h3 : f2.nb_samples ≤ N) :
    (∃ st1, main_loop r [f1] (State.init s0) = .ok st1 ∧ st1.accepted = []) ∧
    ∃ st2, main_loop r [f1, f2] (State.init s0) = .ok st2 ∧ st2.well_formed ∧
      st2.accepted = [f1.data.map normalize] ∧ st2.nb_samples = f2.nb_samples ∧
      st2.emitter = observe (r.GetResult (pump r (r.AcceptWaveform s0 (f1.data.map normalize))))
        (r.IsEndpoint (pump r (r.AcceptWaveform s0 (f1.data.map normalize))))
        ⟨"", 0, []⟩ := by
  obtain ⟨st1, hok1, hwf1, hnb1, hbuf1, hacc1, hem1, hs1⟩ :=
    sherpa_decode_frame_append r f1 (State.init s0) (init_well_formed s0)
      (by simpa [State.init] using h1)
  have hb0 : (State.init s0).buffer = [] := by simp [State.buffer, State.init]
  have hn0 : (State.init s0).nb_samples = 0 := rfl
  rw [hb0, List.nil_append] at hbuf1
  rw [hn0, Nat.zero_add] at hnb1
  obtain ⟨st2, hok2, hwf2, hnb2, _, hacc2, hem2, _⟩ :=
    sherpa_decode_frame_dispatch r f2 st1 hwf1 (by rw [hnb1]; exact h2) h3
  refine ⟨⟨st1, by simp only [main_loop, hok1], by rw [hacc1]; rfl⟩, st2, ?_, hwf2, ?_, hnb2, ?_⟩
  · simp only [main_loop, hok1, hok2]
  · rw [hacc2, hacc1, hbuf1]; rfl
  · rw [hem2]
    simp only [dispatch]
    rw [hem1, hs1, ← State.buffer, hbuf1]
    rfl

/-- A call records at most one observation and applies it to the emitter. -/
theorem sherpa_decode_frame_observed {σ : Type} (r : Recognizer σ) (frame : AVFrame)
    (st st1 : State σ) (h : sherpa_decode_frame r frame st = .ok st1) :
    ∃ obs, st1.observed = st.observed ++ obs ∧ st1.emitter = observe_all obs st.emitter := by
  unfold sherpa_decode_frame at h
  by_cases hc : frame.nb_samples + st.nb_samples ≥ N
  · simp only [hc, if_true] at h
    split at h
    · simp only [Except.ok.injEq] at h
      subst h
      exact ⟨[(_, _)], rfl, rfl⟩
    · simp at h
  · simp only [hc, if_false] at h
    split at h
    · simp only [Except.ok.injEq] at h
      subst h
      exact ⟨[], (List.append_nil _).symm, rfl⟩
    · simp at h

theorem observe_all_append (obs more : List (String × Bool)) : ∀ e : Emitter,
    observe_all (obs ++ more) e = observe_all more (observe_all obs e) := by
  induction obs with
  | nil => intro e; rfl
  | cons o rest ih =>
    intro e
    obtain ⟨t, ep⟩ := o
    show observe_all (rest ++ more) (observe t ep e) = _
    exact ih _

/-- The emitter after the read loop is the emitter before it after the recorded
observations. -/
theorem main_loop_observed {σ : Type} (r : Recognizer σ) :
    ∀ (frames : List AVFrame) (st st1 : State σ), main_loop r frames st = .ok st1 →
    ∃ obs, st1.observed = st.observed ++ obs ∧ st1.emitter = observe_all obs st.emitter
  | [], st, st1, h => by
    simp only [main_loop, Except.ok.injEq] at h
    subst h; exact ⟨[], (List.append_nil _).symm, rfl⟩
  | frame :: frames, st, st1, h => by
    simp only [main_loop] at h
    cases hstep : sherpa_decode_frame r frame st with
    | error i => simp [hstep] at h
    | ok st2 =>
      simp only [hstep] at h
      obtain ⟨o1, hl1, h1⟩ := sherpa_decode_frame_observed r frame st st2 hstep
      obtain ⟨o2, hl2, h2⟩ := main_loop_observed r frames st2 st1 h
      exact ⟨o1 ++ o2, by rw [hl2, hl1, List.append_assoc],
        by rw [h2, h1, observe_all_append]⟩

theorem observe_no_endpoint (text : String) (e : Emitter) (h : last_printed e) :
    last_printed (observe text false e) ∧
      (observe text false e).segment_index = e.segment_index := by
  unfold last_printed at h ⊢
  rw [observe_eq]
  have hseg : (if false = true ∧ text ≠ "" then to_int32 (e.segment_index + 1)
      else e.segment_index) = e.segment_index := by simp
  rw [hseg]
  refine ⟨?_, rfl⟩
  by_cases hc : text ≠ "" ∧ e.last_text ≠ text
  · rw [if_pos hc, if_pos hc]
    intro _
    simp
  · rw [if_neg hc, if_neg hc]
    simpa using h

theorem observe_all_no_endpoint (obs : List (String × Bool)) : ∀ e : Emitter,
    (∀ o ∈ obs, o.2 = false) → last_printed e →
    last_printed (observe_all obs e) ∧ (observe_all obs e).segment_index = e.segment_index := by
  induction obs with
  | nil => intro e _ h; exact ⟨h, rfl⟩
  | cons o rest ih =>
    intro e hall h
    obtain ⟨t, ep⟩ := o
    have hep : ep = false := hall (t, ep) (List.mem_cons_self _ _)
    subst hep
    obtain ⟨h1, h2⟩ := observe_no_endpoint t e h
    obtain ⟨h3, h4⟩ := ih (observe t false e)
      (fun o ho => hall o (List.mem_cons_of_mem _ ho)) h1
    exact ⟨h3, by rw [← h2]; exact h4⟩

theorem replicate_nb_samples (n : Nat) (p : Int) :
    (AVFrame.mk (List.replicate n p)).nb_samples = n := by
  unfold AVFrame.nb_samples
  rw [List.length_replicate]

/-- The scenario of the specification, chunks of 1000, 2300 and 500 samples:
nothing is dispatched by the first call, the second call dispatches the
1000 samples of the first chunk, the third call dispatches nothing. -/
theorem main_loop_scenario {σ : Type} (r : Recognizer σ) (s0 : σ) (f1 f2 f3 : AVFrame)
    (h1 : f1.nb_samples = 1000) (h2 : f2.nb_samples = 2300) (h3 : f3.nb_samples = 500) :
    ∃ st1 st2 st3, main_loop r [f1] (State.init s0) = .ok st1 ∧
      main_loop r [f1, f2] (State.init s0) = .ok st2 ∧
      main_loop r [f1, f2, f3] (State.init s0) = .ok st3 ∧
      st1.accepted = [] ∧ st2.accepted = [f1.data.map normalize] ∧
      st3.accepted = [f1.data.map normalize] ∧ st3.nb_samples = 2800 := by
  have hN : N = 3200 := rfl
  obtain ⟨⟨st1, hok1, hacc1⟩, st2, hok2, hwf2, hacc2, hnb2, _⟩ :=
    main_loop_two_frames r s0 f1 f2 (by omega) (by omega) (by omega)
  obtain ⟨st3, hok3, _, hnb3, _, hacc3, _, _⟩ :=
    sherpa_decode_frame_append r f3 st2 hwf2 (by omega)
  refine ⟨st1, st2, st3, hok1, hok2, ?_, hacc1, hacc2, by rw [hacc3, hacc2], by omega⟩
  have := main_loop_append r [f1, f2] [f3] _ _ hok2
  simp only [List.cons_append, List.nil_append] at this
  rw [this]
  simp only [main_loop, hok3]

theorem all_samples_eq (frames : List AVFrame) :
    all_samples frames = (frames.flatMap AVFrame.data).map normalize := by
  simp only [all_samples, List.flatMap, List.map_flatten, List.map_map]
  rfl

theorem pump_not_ready {σ : Type} (r : Recognizer σ) (s : σ) (h : r.IsReady s = false) :
    pump r s = s := by
  rw [pump]; simp [h]

theorem pump_done_aux {σ : Type} (r : Recognizer σ) :
    ∀ (n : Nat) (s : σ), r.pending s = n → r.IsReady (pump r s) = false := by
  intro n
  induction n using Nat.strong_induction_on with
  | _ n ih =>
    intro s hn
    rw [pump]
    by_cases h : r.IsReady s = true
    · simp only [h, dite_true]
      exact ih _ (by rw [← hn]; exact r.pending_decreases s h) _ rfl
    · simp only [h, dite_false]
      simpa using h

/-- The decode loop ends, and the recognizer is not ready when it does. -/
theorem pump_done {σ : Type} (r : Recognizer σ) (s : σ) : r.IsReady (pump r s) = false :=
  pump_done_aux r _ s rfl

/-! ## The accumulator: claims C8, C10 -/

/-- C8. Ordering and conservation: for every sequence of frames of at most
`N = 3200` samples each and every number `k` of calls of
`sherpa_decode_frame`, the calls succeed and the blocks dispatched so far,
concatenated in dispatch order and followed by the buffer content
`samples[0 .. nb_samples)`, are the samples of the first `k` frames, each
divided by 32768, in arrival order. -/
theorem accumulator_conservation {σ : Type} (r : Recognizer σ) (s0 : σ)
    (frames : List AVFrame) (hframes : ∀ frame ∈ frames, frame.nb_samples ≤ N) (k : Nat) :
    ∃ st, main_loop r (frames.take k) (State.init s0) = .ok st ∧
      st.accepted.flatten ++ st.samples.take st.nb_samples =
        ((frames.take k).flatMap AVFrame.data).map (fun p : Int => (p : ℚ) / 32768) := by
  obtain ⟨st, hok, _, hcat, _⟩ :=
    main_loop_spec r (frames.take k) (State.init s0) (init_well_formed s0)
      (fun f hf => hframes f (List.mem_of_mem_take hf))
  refine ⟨st, hok, ?_⟩
  have h0 : (State.init s0).accepted.flatten ++ (State.init s0).buffer = [] := by
    simp [State.init, State.buffer]
  rw [h0, List.nil_append] at hcat
  rw [← State.buffer, hcat, all_samples_eq]
  rfl

/-- Witness of C8 on two frames of 2000 samples: the second call dispatches the
first frame, so the conservation is checked across a dispatch. -/
theorem accumulator_conservation_witness :
    (∀ frame ∈ [AVFrame.mk (List.replicate 2000 16384),
        AVFrame.mk (List.replicate 2000 (-16384))], frame.nb_samples ≤ N) ∧
    (∃ st, main_loop (constRecognizer "")
        ([AVFrame.mk (List.replicate 2000 16384),
          AVFrame.mk (List.replicate 2000 (-16384))].take 2) (State.init ()) = .ok st ∧
      st.accepted.flatten ++ st.samples.take st.nb_samples =
        (([AVFrame.mk (List.replicate 2000 16384),
          AVFrame.mk (List.replicate 2000 (-16384))].take 2).flatMap AVFrame.data).map
          (fun p : Int => (p : ℚ) / 32768)) ∧
    (∃ st, main_loop (constRecognizer "")
        [AVFrame.mk (List.replicate 2000 16384), AVFrame.mk (List.replicate 2000 (-16384))]
        (State.init ()) = .ok st ∧
      st.accepted = [(List.replicate 2000 (16384 : Int)).map normalize] ∧
      st.nb_samples = 2000) := by
  have hN : N = 3200 := rfl
  have h1 := replicate_nb_samples 2000 16384
  have h2 := replicate_nb_samples 2000 (-16384)
  have hall : ∀ frame ∈ [AVFrame.mk (List.replicate 2000 16384),
      AVFrame.mk (List.replicate 2000 (-16384))], frame.nb_samples ≤ N := by
    intro frame hf
    rcases List.mem_cons.1 hf with h | hf
    · rw [h, h1, hN]; decide
    · rcases List.mem_cons.1 hf with h | hf
      · rw [h, h2, hN]; decide
      · exact absurd hf (List.not_mem_nil _)
  refine ⟨hall, accumulator_conservation (constRecognizer "") () _ hall 2, ?_⟩
  obtain ⟨_, st, hok, _, hacc, hnb, _⟩ :=
    main_loop_two_frames (constRecognizer "") ()
      (AVFrame.mk (List.replicate 2000 16384)) (AVFrame.mk (List.replicate 2000 (-16384)))
      (by rw [h1, hN]; decide) (by rw [h1, h2, hN]; decide) (by rw [h2, hN]; decide)
  exact ⟨st, hok, hacc, by rw [hnb, h2]⟩

/-- C10. Buffer bound: when every frame has at most `N = 3200` samples, then
after any number `k` of calls every call has succeeded (no write outside
`samples[0 .. N)`), `nb_samples ≤ N`, and the array still has its `N`
cells; the bound on the frame size is needed: a frame of more than `N`
samples arriving at an empty buffer makes the write index reach `N`. -/
theorem buffer_bound {σ : Type} (r : Recognizer σ) (s0 : σ)
    (frames : List AVFrame) (hframes : ∀ frame ∈ frames, frame.nb_samples ≤ N)
    (big : AVFrame) (hbig : N < big.nb_samples)
    (st0 : State σ) (hempty : st0.nb_samples = 0) :
    (∀ k, ∃ st, main_loop r (frames.take k) (State.init s0) = .ok st ∧
      st.nb_samples ≤ N ∧ st.samples.length = N) ∧
    sherpa_decode_frame r big st0 = .error N := by
  constructor
  · intro k
    obtain ⟨st, hok, hwf, _⟩ :=
      main_loop_spec r (frames.take k) (State.init s0) (init_well_formed s0)
        (fun f hf => hframes f (List.mem_of_mem_take hf))
    exact ⟨st, hok, hwf.2, hwf.1⟩
  · unfold sherpa_decode_frame
    have hc : big.nb_samples + st0.nb_samples ≥ N := by omega
    simp only [hc, if_true]
    have e2 : (dispatch r st0).nb_samples = 0 := rfl
    rw [e2, write_samples_error big.data _ 0 (Nat.zero_le _)
      (by simpa [AVFrame.nb_samples] using hbig)]

/-- Witness of C10: two short frames, and a frame of 3201 samples at the initial
state. -/
theorem buffer_bound_witness :
    (∀ frame ∈ [AVFrame.mk [1, 2], AVFrame.mk [3]], frame.nb_samples ≤ N) ∧
    N < (AVFrame.mk (List.replicate 3201 0)).nb_samples ∧
    (State.init ()).nb_samples = 0 ∧
    (∀ k, ∃ st, main_loop (constRecognizer "") ([AVFrame.mk [1, 2], AVFrame.mk [3]].take k)
        (State.init ()) = .ok st ∧ st.nb_samples ≤ N ∧ st.samples.length = N) ∧
    sherpa_decode_frame (constRecognizer "") (AVFrame.mk (List.replicate 3201 0))
        (State.init ()) = .error N :=
  ⟨by decide, by unfold AVFrame.nb_samples; rw [List.length_replicate]; decide, rfl,
    buffer_bound (constRecognizer "") () [AVFrame.mk [1, 2], AVFrame.mk [3]] (by decide)
      (AVFrame.mk (List.replicate 3201 0))
      (by unfold AVFrame.nb_samples; rw [List.length_replicate]; decide)
      (State.init ()) rfl⟩

/-! ## The accumulator: claims C1, C3 -/

/-- C1, as stated, fails. For the chunks 1000, 2300, 500 the dispatch made during
the second call carries 1000 samples, not 3200; and for the chunks 1600,
1600, whose total 3200 is a multiple of `N`, the one block dispatched has
1600 samples, not `N`. -/
theorem window_integrity_counterexample :
    (∃ st2 st3,
      main_loop (constRecognizer "")
        [AVFrame.mk (List.replicate 1000 0), AVFrame.mk (List.replicate 2300 0)]
        (State.init ()) = .ok st2 ∧
      main_loop (constRecognizer "")
        [AVFrame.mk (List.replicate 1000 0), AVFrame.mk (List.replicate 2300 0),
          AVFrame.mk (List.replicate 500 0)]
        (State.init ()) = .ok st3 ∧
      st2.accepted.map List.length = [1000] ∧ st3.accepted.map List.length = [1000] ∧
      st2.accepted.map List.length ≠ [3200]) ∧
    ((1600 + 1600) % N = 0 ∧
      ∃ st, main_loop (constRecognizer "")
          [AVFrame.mk (List.replicate 1600 0), AVFrame.mk (List.replicate 1600 0)]
          (State.init ()) = .ok st ∧
        st.accepted.map List.length = [1600] ∧
        ¬ (∀ w ∈ st.accepted, w.length = N)) := by
  constructor
  · obtain ⟨_, st2, st3, _, hok2, hok3, _, hacc2, hacc3, _⟩ :=
      main_loop_scenario (constRecognizer "") ()
        (AVFrame.mk (List.replicate 1000 0)) (AVFrame.mk (List.replicate 2300 0))
        (AVFrame.mk (List.replicate 500 0))
        (by unfold AVFrame.nb_samples; rw [List.length_replicate])
        (by unfold AVFrame.nb_samples; rw [List.length_replicate])
        (by unfold AVFrame.nb_samples; rw [List.length_replicate])
    have hlen : [List.map normalize (AVFrame.mk (List.replicate 1000 0)).data].map List.length
        = [1000] := by
      show [((List.replicate 1000 (0 : Int)).map normalize).length] = [1000]
      rw [List.length_map, List.length_replicate]
    refine ⟨st2, st3, hok2, hok3, ?_, ?_, ?_⟩
    · rw [hacc2, hlen]
    · rw [hacc3, hlen]
    · rw [hacc2, hlen]; decide
  · refine ⟨by decide, ?_⟩
    have hl : (AVFrame.mk (List.replicate 1600 0)).nb_samples = 1600 := by
      unfold AVFrame.nb_samples; rw [List.length_replicate]
    have hN : N = 3200 := rfl
    obtain ⟨_, st, hok, _, hacc, _, _⟩ :=
      main_loop_two_frames (constRecognizer "") ()
        (AVFrame.mk (List.replicate 1600 0)) (AVFrame.mk (List.replicate 1600 0))
        (by omega) (by omega) (by omega)
    have hlen : (List.map normalize (AVFrame.mk (List.replicate 1600 0)).data).length
        = 1600 := by
      show ((List.replicate 1600 (0 : Int)).map normalize).length = 1600
      rw [List.length_map, List.length_replicate]
    refine ⟨st, hok, ?_, ?_⟩
    · rw [hacc]
      show [(List.map normalize (AVFrame.mk (List.replicate 1600 0)).data).length] = [1600]
      rw [hlen]
    · intro hall
      have := hall _ (by rw [hacc]; exact List.mem_singleton_self _)
      rw [hlen] at this
      exact absurd this (by decide)

/-- C1, amended. For chunks of at most `N = 3200` samples fed in order from the
empty buffer: every dispatched block has at most `N` samples; the blocks,
concatenated in dispatch order, are the normalized input without the
samples still buffered; a call dispatches exactly when the buffered count
plus the incoming count reaches `N`, and the block is the buffer content
before the incoming chunk is stored. For chunks of 1000, 2300 and 500 samples
the only dispatch is made during the second call and carries the 1000
samples of the first chunk. -/
theorem window_dispatch {σ : Type} (r : Recognizer σ) (s0 : σ)
    (frames : List AVFrame) (hframes : ∀ frame ∈ frames, frame.nb_samples ≤ N) :
    (∃ st, main_loop r frames (State.init s0) = .ok st ∧
      (∀ w ∈ st.accepted, w.length ≤ N) ∧
      st.accepted.flatten =
        (all_samples frames).take ((all_samples frames).length - st.nb_samples)) ∧
    (∀ (frame : AVFrame) (st : State σ), st.well_formed → frame.nb_samples ≤ N →
      ∃ st1, sherpa_decode_frame r frame st = .ok st1 ∧
        st1.accepted = st.accepted ++
          (if N ≤ frame.nb_samples + st.nb_samples then [st.samples.take st.nb_samples]
           else [])) ∧
    (∀ f1 f2 f3 : AVFrame,
      f1.nb_samples = 1000 → f2.nb_samples = 2300 → f3.nb_samples = 500 →
      ∃ st1 st2 st3, main_loop r [f1] (State.init s0) = .ok st1 ∧
        main_loop r [f1, f2] (State.init s0) = .ok st2 ∧
        main_loop r [f1, f2, f3] (State.init s0) = .ok st3 ∧
        st1.accepted = [] ∧ st2.accepted = [f1.data.map normalize] ∧
        st3.accepted = [f1.data.map normalize] ∧
        (f1.data.map normalize).length = 1000) := by
  refine ⟨?_, ?_, ?_⟩
  · obtain ⟨st, hok, hwf, hcat, ws, hws, hle⟩ :=
      main_loop_spec r frames (State.init s0) (init_well_formed s0) hframes
    have h0 : (State.init s0).accepted.flatten ++ (State.init s0).buffer = [] := by
      simp [State.init, State.buffer]
    rw [h0, List.nil_append] at hcat
    refine ⟨st, hok, ?_, ?_⟩
    · intro w hw
      rw [hws] at hw
      exact hle w (by simpa [State.init] using hw)
    · have hlen := congrArg List.length hcat
      rw [List.length_append, buffer_length st hwf] at hlen
      rw [← hlen, Nat.add_sub_cancel, ← hcat, List.take_left]
  · intro frame st hst hframe
    by_cases h : N ≤ frame.nb_samples + st.nb_samples
    · obtain ⟨st1, hok, _, _, _, hacc, _, _⟩ :=
        sherpa_decode_frame_dispatch r frame st hst h hframe
      exact ⟨st1, hok, by rw [hacc, if_pos h]; rfl⟩
    · obtain ⟨st1, hok, _, _, _, hacc, _, _⟩ :=
        sherpa_decode_frame_append r frame st hst (Nat.not_le.1 h)
      exact ⟨st1, hok, by rw [hacc, if_neg h, List.append_nil]⟩
  · intro f1 f2 f3 h1 h2 h3
    obtain ⟨st1, st2, st3, hok1, hok2, hok3, hacc1, hacc2, hacc3, _⟩ :=
      main_loop_scenario r s0 f1 f2 f3 h1 h2 h3
    exact ⟨st1, st2, st3, hok1, hok2, hok3, hacc1, hacc2, hacc3,
      by rw [List.length_map]; exact h1⟩

/-- Witness of the amended C1 on two short frames. -/
theorem window_dispatch_witness :
    (∀ frame ∈ [AVFrame.mk [16384, -16384], AVFrame.mk [0]], frame.nb_samples ≤ N) ∧
    ∃ st, main_loop (constRecognizer "") [AVFrame.mk [16384, -16384], AVFrame.mk [0]]
        (State.init ()) = .ok st ∧
      (∀ w ∈ st.accepted, w.length ≤ N) ∧
      st.accepted.flatten =
        (all_samples [AVFrame.mk [16384, -16384], AVFrame.mk [0]]).take
          ((all_samples [AVFrame.mk [16384, -16384], AVFrame.mk [0]]).length -
            st.nb_samples) :=
  ⟨by decide, (window_dispatch (constRecognizer "") ()
    [AVFrame.mk [16384, -16384], AVFrame.mk [0]] (by decide)).1⟩

/-- C3, as stated, fails. With one frame holding the single sample 16384 (0.5
after normalization) the only block the recognizer receives before
`InputFinished` is the tail padding: the sample is still in the buffer and
is never delivered. -/
theorem tail_audio_counterexample :
    ∃ st, main_run (constRecognizer "") () [AVFrame.mk [16384]] = .ok st ∧
      st.accepted = [tail_paddings] ∧ tail_paddings = List.replicate 4800 0 ∧
      st.samples.take st.nb_samples = [normalize 16384] ∧
      st.accepted.flatten ≠ all_samples [AVFrame.mk [16384]] ++ tail_paddings := by
  obtain ⟨st1, hok, _, _, hbuf, hacc, _, _⟩ :=
    sherpa_decode_frame_append (constRecognizer "") (AVFrame.mk [16384]) (State.init ())
      (init_well_formed ()) (by decide)
  refine ⟨finalize (constRecognizer "") st1, ?_, ?_, rfl, ?_, ?_⟩
  · exact main_run_ok _ _ _ _ (main_loop_one _ _ _ _ hok)
  · show st1.accepted ++ [tail_paddings] = _
    rw [hacc]; rfl
  · show st1.buffer = _
    rw [hbuf]; rfl
  · show (st1.accepted ++ [tail_paddings]).flatten ≠ _
    rw [hacc]
    generalize tail_paddings = z
    intro h
    have hlen := congrArg List.length h
    simp [State.init, all_samples] at hlen

/-- C3, amended. For frames of at most `N = 3200` samples each, the blocks passed
to `AcceptWaveform` up to `InputFinished` are the blocks dispatched by the
read loop followed by one block of 4800 zeros; concatenated, they are the
normalized input in arrival order without the samples still held in the
buffer when the source ends, followed by the 4800 zeros. The end-of-stream
steps leave those buffered samples where they are. -/
theorem end_of_stream_blocks {σ : Type} (r : Recognizer σ) (s0 : σ)
    (frames : List AVFrame) (hframes : ∀ frame ∈ frames, frame.nb_samples ≤ N) :
    ∃ st fin, main_loop r frames (State.init s0) = .ok st ∧
      main_run r s0 frames = .ok fin ∧
      fin.accepted = st.accepted ++ [tail_paddings] ∧
      fin.accepted.flatten =
        (all_samples frames).take ((all_samples frames).length - fin.nb_samples) ++
          tail_paddings ∧
      fin.samples.take fin.nb_samples =
        (all_samples frames).drop ((all_samples frames).length - fin.nb_samples) ∧
      fin.nb_samples = st.nb_samples := by
  obtain ⟨st, hok, hwf, hcat, _⟩ :=
    main_loop_spec r frames (State.init s0) (init_well_formed s0) hframes
  have h0 : (State.init s0).accepted.flatten ++ (State.init s0).buffer = [] := by
    simp [State.init, State.buffer]
  rw [h0, List.nil_append] at hcat
  have hlen := congrArg List.length hcat
  rw [List.length_append, buffer_length st hwf] at hlen
  refine ⟨st, finalize r st, hok, main_run_ok r s0 frames st hok, rfl, ?_, ?_, rfl⟩
  · show (st.accepted ++ [tail_paddings]).flatten =
      (all_samples frames).take ((all_samples frames).length - st.nb_samples) ++ _
    rw [← hlen, Nat.add_sub_cancel, ← hcat, List.take_left]
    generalize tail_paddings = z
    simp
  · show st.buffer = (all_samples frames).drop ((all_samples frames).length - st.nb_samples)
    rw [← hlen, Nat.add_sub_cancel, ← hcat, List.drop_left]

/-- Witness of the amended C3 on two short frames. -/
theorem end_of_stream_blocks_witness :
    (∀ frame ∈ [AVFrame.mk [16384, -16384], AVFrame.mk [0]], frame.nb_samples ≤ N) ∧
    ∃ st fin, main_loop (constRecognizer "") [AVFrame.mk [16384, -16384], AVFrame.mk [0]]
        (State.init ()) = .ok st ∧
      main_run (constRecognizer "") () [AVFrame.mk [16384, -16384], AVFrame.mk [0]] = .ok fin ∧
      fin.accepted = st.accepted ++ [tail_paddings] ∧
      fin.accepted.flatten =
        (all_samples [AVFrame.mk [16384, -16384], AVFrame.mk [0]]).take
          ((all_samples [AVFrame.mk [16384, -16384], AVFrame.mk [0]]).length -
            fin.nb_samples) ++ tail_paddings ∧
      fin.samples.take fin.nb_samples =
        (all_samples [AVFrame.mk [16384, -16384], AVFrame.mk [0]]).drop
          ((all_samples [AVFrame.mk [16384, -16384], AVFrame.mk [0]]).length -
            fin.nb_samples) ∧
      fin.nb_samples = st.nb_samples :=
  ⟨by decide, end_of_stream_blocks (constRecognizer "") ()
    [AVFrame.mk [16384, -16384], AVFrame.mk [0]] (by decide)⟩

/-! ## End of stream: claim C5 -/

/-- C5, as stated, fails. With a recognizer that never reports an endpoint and
always returns "hi", and one frame of 3200 samples, the read loop makes one
observation, without endpoint, and prints `(0, "hi")`; the final text "hi"
is non-empty but equals `last_text`, and the end-of-stream steps print
nothing. -/
theorem tail_flush_counterexample :
    (∀ s, (constRecognizer "hi").IsEndpoint s = false) ∧
    ∃ st fin, main_loop (constRecognizer "hi") [AVFrame.mk (List.replicate 3200 0)]
        (State.init ()) = .ok st ∧
      main_run (constRecognizer "hi") () [AVFrame.mk (List.replicate 3200 0)] = .ok fin ∧
      st.observed = [("hi", false)] ∧
      (constRecognizer "hi").GetResult (final_stream (constRecognizer "hi") st.s) = "hi" ∧
      st.emitter = ⟨"hi", 0, [(0, "hi")]⟩ ∧
      emissions st.emitter fin.emitter = [] ∧
      emissions st.emitter fin.emitter ≠ [(0, "hi")] := by
  refine ⟨fun _ => rfl, ?_⟩
  have hl := replicate_nb_samples 3200 0
  obtain ⟨st1, hok, _, _, _, _, hem, _, hobs⟩ :=
    sherpa_decode_frame_dispatch (constRecognizer "hi") (AVFrame.mk (List.replicate 3200 0))
      (State.init ()) (init_well_formed ()) (by rw [hl]; decide) (by rw [hl]; decide)
  have hem1 : st1.emitter = ⟨"hi", 0, [(0, "hi")]⟩ := by
    rw [hem]
    show observe "hi" false ⟨"", 0, []⟩ = _
    decide
  have hfin : (finalize (constRecognizer "hi") st1).emitter = st1.emitter := by
    show (print_if_new "hi" st1.emitter).2 = st1.emitter
    rw [hem1]; decide
  refine ⟨st1, finalize (constRecognizer "hi") st1, ?_, ?_, ?_, rfl, hem1, ?_, ?_⟩
  · exact main_loop_one _ _ _ _ hok
  · exact main_run_ok _ _ _ _ (main_loop_one _ _ _ _ hok)
  · rw [hobs]; rfl
  · rw [hfin]; simp [emissions]
  · rw [hfin]; simp [emissions]

/-- C5, amended. For every run whose observations never report an endpoint and
whose final recognizer text is non-empty: the end-of-stream steps print
the final text (lower-cased) exactly once, under the current segment
index, when it differs from `last_text`; when it equals `last_text` they
print nothing, and the text is already the most recent print of the run,
under the current segment index. In both cases the last entry of the
display after the end-of-stream steps is the final text under the current
segment index, the segment index is left as it is (it is still 0), and
`last_text` ends up equal to the final text. -/
theorem tail_flush {σ : Type} (r : Recognizer σ) (s0 : σ) (frames : List AVFrame)
    (st : State σ) (hloop : main_loop r frames (State.init s0) = .ok st)
    (hnoend : ∀ o ∈ st.observed, o.2 = false)
    (htext : r.GetResult (final_stream r st.s) ≠ "") :
    main_run r s0 frames = .ok (finalize r st) ∧
    emissions st.emitter (finalize r st).emitter =
      (if st.emitter.last_text ≠ r.GetResult (final_stream r st.s) then
        [(st.emitter.segment_index, lowercase (r.GetResult (final_stream r st.s)))]
       else []) ∧
    (st.emitter.last_text = r.GetResult (final_stream r st.s) →
      st.emitter.display.getLast? =
        some (st.emitter.segment_index, lowercase (r.GetResult (final_stream r st.s)))) ∧
    (finalize r st).emitter.display.getLast? =
      some (st.emitter.segment_index, lowercase (r.GetResult (final_stream r st.s))) ∧
    (finalize r st).emitter.segment_index = st.emitter.segment_index ∧
    st.emitter.segment_index = 0 ∧
    (finalize r st).emitter.last_text = r.GetResult (final_stream r st.s) := by
  have hfin : (finalize r st).emitter =
      (print_if_new (r.GetResult (final_stream r st.s)) st.emitter).2 := rfl
  obtain ⟨obs, hobs, hem⟩ := main_loop_observed r frames _ _ hloop
  have hobs1 : st.observed = obs := by
    rw [hobs]; rfl
  have hinit : last_printed (State.init s0).emitter := by
    intro h
    exact absurd rfl h
  obtain ⟨hinv, hseg⟩ := observe_all_no_endpoint obs (State.init s0).emitter
    (by rw [← hobs1]; exact hnoend) hinit
  rw [← hem] at hinv hseg
  have hseg0 : st.emitter.segment_index = 0 := hseg
  have hlast : st.emitter.last_text = r.GetResult (final_stream r st.s) →
      st.emitter.display.getLast? =
        some (st.emitter.segment_index, lowercase (r.GetResult (final_stream r st.s))) := by
    intro heq
    have := hinv (by rw [heq]; exact htext)
    rw [heq] at this
    exact this
  refine ⟨main_run_ok r s0 frames st hloop, ?_, hlast, ?_, ?_, hseg0, ?_⟩
  · rw [hfin]
    by_cases hc : st.emitter.last_text = r.GetResult (final_stream r st.s)
    · simp [print_if_new, hc, emissions]
    · simp [print_if_new, hc, htext, emissions]
  · rw [hfin]
    by_cases hc : st.emitter.last_text = r.GetResult (final_stream r st.s)
    · have h1 := hlast hc
      simp only [print_if_new, hc, ne_eq, not_true_eq_false, and_false, if_false]
      exact h1
    · simp [print_if_new, hc, htext]
  · rw [hfin]
    by_cases hc : st.emitter.last_text = r.GetResult (final_stream r st.s)
    · simp [print_if_new, hc]
    · simp [print_if_new, hc, htext]
  · rw [hfin]
    by_cases hc : st.emitter.last_text = r.GetResult (final_stream r st.s)
    · simp [print_if_new, hc]
    · simp [print_if_new, hc, htext]

/-- Witness of the amended C5 in the case where the final text equals `last_text`:
one frame of 3200 samples and a recognizer that always returns "Hi" and
never reports an endpoint. The read loop prints `(0, "hi")`, the
end-of-stream steps print nothing, and the display ends with `(0, "hi")`. -/
theorem tail_flush_witness :
    ∃ st, main_loop (constRecognizer "Hi") [AVFrame.mk (List.replicate 3200 0)]
        (State.init ()) = .ok st ∧
      (∀ o ∈ st.observed, o.2 = false) ∧
      (constRecognizer "Hi").GetResult (final_stream (constRecognizer "Hi") st.s) ≠ "" ∧
      st.emitter.last_text = "Hi" ∧
      emissions st.emitter (finalize (constRecognizer "Hi") st).emitter = [] ∧
      (finalize (constRecognizer "Hi") st).emitter.display.getLast? = some (0, "hi") := by
  have hl := replicate_nb_samples 3200 0
  obtain ⟨st1, hok, _, _, _, _, hem, _, hobs⟩ :=
    sherpa_decode_frame_dispatch (constRecognizer "Hi") (AVFrame.mk (List.replicate 3200 0))
      (State.init ()) (init_well_formed ()) (by rw [hl]; decide) (by rw [hl]; decide)
  have hem1 : st1.emitter = ⟨"Hi", 0, [(0, "hi")]⟩ := by
    rw [hem]
    show observe "Hi" false ⟨"", 0, []⟩ = _
    decide
  have hobs1 : st1.observed = [("Hi", false)] := by
    rw [hobs]; rfl
  have hloop := main_loop_one _ _ _ _ hok
  have hnoend : ∀ o ∈ st1.observed, o.2 = false := by
    rw [hobs1]
    intro o ho
    rw [List.mem_singleton.1 ho]
  have htext : (constRecognizer "Hi").GetResult
      (final_stream (constRecognizer "Hi") st1.s) ≠ "" := by
    show "Hi" ≠ ""
    decide
  have h := tail_flush (constRecognizer "Hi") () [AVFrame.mk (List.replicate 3200 0)]
    st1 hloop hnoend htext
  have hlt : st1.emitter.last_text = "Hi" := by rw [hem1]
  refine ⟨st1, hloop, hnoend, htext, hlt, ?_, ?_⟩
  · rw [h.2.1]
    show (if st1.emitter.last_text ≠ "Hi" then _ else []) = []
    rw [hlt]; simp
  · rw [h.2.2.2.1, h.2.2.2.2.2.1]
    show some ((0 : Int), lowercase "Hi") = some (0, "hi")
    decide

/-! ## Command line: claim C9 -/

/-- C9, the code at the failing inputs. With the file name "input.mp4" as `argv[8]`
and "2" as `argv[9]` the thread count is the default 4, not 2; with the
file name "8k.wav" as `argv[8]` and no further argument the thread count
is 8, not the default 4: the code reads the thread count from `argv[8]`,
the input URL. -/
theorem num_threads_read_from_url :
    main_num_threads ["sherpa-ncnn-ffmpeg", "tokens.txt", "encoder.param", "encoder.bin",
      "decoder.param", "decoder.bin", "joiner.param", "joiner.bin", "input.mp4", "2"]
      = some 4 ∧
    main_num_threads ["sherpa-ncnn-ffmpeg", "tokens.txt", "encoder.param", "encoder.bin",
      "decoder.param", "decoder.bin", "joiner.param", "joiner.bin", "8k.wav"]
      = some 8 := by
  decide

end SherpaFfmpeg
